import Mathlib

set_option maxHeartbeats 1000000

/-!
Verification of the UDP double-array telemetry channel
(`UdpDoubleSender.cpp` / `UdpDoubleReceiver.cpp`).

Bytes are modelled as natural numbers below 256 (the C++ code reads and
writes `uint8_t`); the shift-and-or reads of the receiver coincide with
the multiply-and-add forms used here on that domain.  IEEE-754 doubles
travel as raw 64-bit patterns: the sender `memcpy`s a `double` into a
`uint64_t` and the receiver `memcpy`s the bits back, both bit
identities, so a payload element is modelled by its 64-bit pattern
(a natural number below `2^64`).
-/

/-- The enum `UdpDoubleReceiver::Endian` — the configured byte order of a
channel. -/
inductive Endian where
  | big : Endian
  | little : Endian
deriving DecidableEq

/-- Protocol magic constant `0x55445044` ("UDPD"): `UdpDoubleSender::MAGIC`;
the receiver's `MAGIC_UDPD` is the same value. -/
def MAGIC : Nat := 0x55445044

/-- Protocol version: `UdpDoubleSender::VERSION`; the receiver's `VERSION_1`
is the same value. -/
def VERSION : Nat := 1

/-- Header size in bytes: `HEADER_BYTES` in both the sender and the
receiver sources. -/
def HEADER_BYTES : Nat := 20

/-- The constant `UdpDoubleSender::DEFAULT_MAX_UDP_PAYLOAD`. -/
def DEFAULT_MAX_UDP_PAYLOAD : Int := 1400

/-- The `w` bytes of the value `v`, most significant byte first (the byte
at distance `k` from the end is `v / 256^k % 256`).  This is the byte
sequence produced by the sender's big-endian writers `writeBE16_`,
`writeBE32u_`, `writeBE32_fromBits_`, `writeBE64_fromBits_` and
`writeDoubleBE_` (which byte-swap on a little-endian host so that the
emitted bytes are always most-significant-first). -/
def beBytes : Nat → Nat → List Nat
  | 0, _ => []
  | w+1, v => v / 256 ^ w % 256 :: beBytes w v

/-- Endian-parametric field writer of `w` bytes.  The `big` branch is the
sender's writer family (see `beBytes`); the `little` branch is modelled
from the spec: the wire codec writes each field "as raw bytes in the
requested byte order", and the little-endian order of a field is the
reversal of its big-endian order (the sender source in `src/` only ever
emits big-endian; the selectable-endianness encoder of the channel is
what the receiver's configurable `Endian` decodes). -/
def writeN : Endian → Nat → Nat → List Nat
  | .big, w, v => beBytes w v
  | .little, w, v => (beBytes w v).reverse

/-- The struct `UdpDoubleReceiver::Packet`: a decoded frame.  `data` holds
the payload doubles as their 64-bit patterns. -/
structure Packet where
  seq : Nat
  timestampNanos : Nat
  data : List Nat
deriving DecidableEq

/-- The receiver's shared state: the `latest_` slot and the `hasData_`
flag, guarded in the source by `dataMutex_`. -/
structure ReceiverState where
  latest : Packet
  hasData : Bool
deriving DecidableEq

/-- The receiver's fields at construction: default `Packet` (zeroed, empty
data) and `hasData_ = false`. -/
def initialReceiverState : ReceiverState :=
  { latest := { seq := 0, timestampNanos := 0, data := [] }, hasData := false }

/-- The `n` bytes of `buf` starting at offset `off` (the receiver reads
each header field at a fixed offset `p + off`). -/
def field (buf : List Nat) (off n : Nat) : List Nat := (buf.drop off).take n

/-- The static member `UdpDoubleReceiver::read16`:
big: `p[0] << 8 | p[1]`; little: `p[1] << 8 | p[0]`. -/
def read16 (e : Endian) (p : List Nat) : Nat :=
  match e with
  | .big => p.getD 0 0 * 256 + p.getD 1 0
  | .little => p.getD 1 0 * 256 + p.getD 0 0

/-- The static member `UdpDoubleReceiver::read32`:
big: `p[0] << 24 | p[1] << 16 | p[2] << 8 | p[3]`; little reversed. -/
def read32 (e : Endian) (p : List Nat) : Nat :=
  match e with
  | .big => p.getD 0 0 * 16777216 + p.getD 1 0 * 65536 + p.getD 2 0 * 256 + p.getD 3 0
  | .little => p.getD 3 0 * 16777216 + p.getD 2 0 * 65536 + p.getD 1 0 * 256 + p.getD 0 0

/-- The static member `UdpDoubleReceiver::read64`:
big: for `i = 0..7`, `v = v << 8 | p[i]`; little: for `i = 7..0`. -/
def read64 (e : Endian) (p : List Nat) : Nat :=
  match e with
  | .big => (p.take 8).foldl (fun v b => v * 256 + b) 0
  | .little => ((p.take 8).reverse).foldl (fun v b => v * 256 + b) 0

/-- The static member `UdpDoubleReceiver::readDouble`: `read64` then a
`memcpy` bit-reinterpretation into `double`, which is the identity on the
64-bit pattern used to model a double here. -/
def readDouble (e : Endian) (p : List Nat) : Nat := read64 e p

/-- The payload-decoding loop of `UdpDoubleReceiver::run`:
`pkt.data[i] = readDouble(dptr + i*8)` for `i = 0..count-1`, where `dptr`
points just past the header. -/
def decodeDoubles (e : Endian) (bs : List Nat) (count : Nat) : List Nat :=
  (List.range count).map (fun i => readDouble e (field bs (i * 8) 8))

/-- The packet built by `UdpDoubleReceiver::run` from an accepted buffer:
`seq` from bytes 8..12, `timestampNanos` from bytes 12..20, and `count`
doubles from byte 20 on, all in the configured endianness. -/
def decodePacket (e : Endian) (buf : List Nat) : Packet :=
  { seq := read32 e (field buf 8 4),
    timestampNanos := read64 e (field buf 12 8),
    data := decodeDoubles e (buf.drop HEADER_BYTES) (read16 e (field buf 6 2)) }

/-- One iteration of the body of `UdpDoubleReceiver::run` on a received
buffer: drop if shorter than the header; read magic/version/count; drop on
magic or version mismatch; drop if `HEADER_BYTES + count*8` exceeds the
received length; otherwise store the decoded packet in `latest_` and set
`hasData_`. -/
def processDatagram (e : Endian) (buf : List Nat) (st : ReceiverState) : ReceiverState :=
  if buf.length < HEADER_BYTES then st
  else if read32 e (field buf 0 4) ≠ MAGIC then st
  else if read16 e (field buf 4 2) ≠ VERSION then st
  else if buf.length < HEADER_BYTES + read16 e (field buf 6 2) * 8 then st
  else { latest := decodePacket e buf, hasData := true }

/-- The receive loop restricted to the datagrams the OS delivers, in
delivery order: each is handled by `processDatagram`. -/
def processAll (e : Endian) (st : ReceiverState) (ds : List (List Nat)) : ReceiverState :=
  ds.foldl (fun s d => processDatagram e d s) st

/-- A buffer that `processDatagram` accepts: long enough for the header,
correct magic and version, and long enough for its declared payload. -/
def ValidDatagram (e : Endian) (d : List Nat) : Prop :=
  HEADER_BYTES ≤ d.length ∧
  read32 e (field d 0 4) = MAGIC ∧
  read16 e (field d 4 2) = VERSION ∧
  HEADER_BYTES + read16 e (field d 6 2) * 8 ≤ d.length

/-- The member `UdpDoubleReceiver::getLatest`: under the lock, return
`false` if `hasData_` is unset (leaving `out` untouched), else copy
`latest_` into `out` and return `true`.  The function only reads the
stored state, so the state is unchanged by construction. -/
def getLatest (st : ReceiverState) (out : Packet) : Bool × Packet :=
  if st.hasData = false then (false, out) else (true, st.latest)

/-- The exceptions `UdpDoubleSender` can raise on a send:
`std::invalid_argument` and `std::runtime_error`, each with its message. -/
inductive SendError where
  | invalidArgument : String → SendError
  | runtimeError : String → SendError
deriving DecidableEq

/-- What a returning (non-throwing) call to `sendWithSeq` did: `noSend`
is the early `return 0` (no datagram emitted); `datagram bs` are the
bytes handed to `send`/`sendto`. -/
inductive SendOutcome where
  | noSend : SendOutcome
  | datagram : List Nat → SendOutcome
deriving DecidableEq

/-- The sender state the send paths read: the capacity `maxDoubles_`, the
auto-sequence counter `seq_` (the 32-bit pattern of the `int32_t`
counter), the timestamp offset `tsOffset_`, and whether the socket is
open. -/
structure SenderState where
  maxDoubles : Int
  seq : Nat
  tsOffset : Int
  isOpen : Bool

/-- The sentinel `INT64_MIN`, the default of `sendWithSeq`'s
`timestampNanos` parameter. -/
def INT64MIN : Int := -(2 ^ 63)

/-- The member `UdpDoubleSender::initTimestampOffset_` as a function of
the steady-clock reading `now0` taken at construction:
`tsOffset_ = (now < 0) ? -now : 0`. -/
def initTimestampOffset_ (now0 : Int) : Int := if now0 < 0 then -now0 else 0

/-- The member `UdpDoubleSender::monotonicNowNanosNonNegative_` as a
function of the stored offset and the current steady-clock reading:
`now + tsOffset_`. -/
def monotonicNowNanosNonNegative_ (tsOffset now : Int) : Int := now + tsOffset

/-- The capacity computation in the `UdpDoubleSender` constructor:
`payloadLimit = maxPayloadBytes > 0 ? maxPayloadBytes : DEFAULT_MAX_UDP_PAYLOAD`,
`maxByPayload = max(0, (payloadLimit - HEADER_BYTES) / 8)` (C++ `int`
division truncates toward zero, which is `Int.tdiv`), and
`maxDoubles_ = max(0, min(maxDoubles, maxByPayload))`. -/
def ctorMaxDoubles (maxDoubles maxPayloadBytes : Int) : Int :=
  let payloadLimit := if 0 < maxPayloadBytes then maxPayloadBytes else DEFAULT_MAX_UDP_PAYLOAD
  let maxByPayload := max 0 ((payloadLimit - (HEADER_BYTES : Int)).tdiv 8)
  max 0 (min maxDoubles maxByPayload)

/-- The frame bytes written by `UdpDoubleSender::sendWithSeq` into
`buffer_` (and passed to the socket), parameterised by the byte order:
magic, version, `count = payload.length`, the 32-bit sequence pattern,
the 64-bit timestamp pattern, then each payload double as 8 raw bytes.
The sender source emits `Endian.big` (its writers are `writeBE*_`); the
`little` instance is the same frame in the other configured byte order
(see `writeN`). -/
def encodeFrame (e : Endian) (seqBits tsBits : Nat) (payload : List Nat) : List Nat :=
  writeN e 4 MAGIC ++ writeN e 2 VERSION ++ writeN e 2 payload.length ++
  writeN e 4 seqBits ++ writeN e 8 tsBits ++ (payload.map (writeN e 8)).flatten

/-- The member `UdpDoubleSender::sendWithSeq`.  Arguments mirror the C++
call: `dataIsNull` is whether the `data` pointer is null, `data` the
pointed-to doubles as 64-bit patterns, `count` the C++ `int` count,
`seq` the 32-bit pattern of the `int32_t` sequence argument,
`timestampNanos` the `int64_t` timestamp argument (defaulted to
`INT64_MIN` by the header), and `clockNow` the steady-clock reading the
call would observe.  Checks in source order: null data raises
`invalid_argument`; `count <= 0` returns 0 without sending;
`count > maxDoubles_` raises `invalid_argument`; a closed socket raises
`runtime_error`; otherwise the timestamp is defaulted if the sentinel was
passed, `n = (uint16_t)count`, and the encoded frame of the first `n`
doubles is handed to the socket. -/
def sendWithSeq (st : SenderState) (dataIsNull : Bool) (data : List Nat)
    (count : Int) (seq : Nat) (timestampNanos : Int) (clockNow : Int) :
    Except SendError SendOutcome :=
  if dataIsNull then .error (.invalidArgument "data is null")
  else if count ≤ 0 then .ok .noSend
  else if st.maxDoubles < count then .error (.invalidArgument "count > maxDoubles/payload cap")
  else if st.isOpen = false then .error (.runtimeError "socket not open")
  else
    let ts : Int := if timestampNanos = INT64MIN
      then monotonicNowNanosNonNegative_ st.tsOffset clockNow
      else timestampNanos
    let n : Nat := count.toNat % 65536
    let payload : List Nat := (List.range n).map (fun i => data.getD i 0)
    .ok (.datagram (encodeFrame .big seq ((ts % (2 ^ 64 : Int)).toNat) payload))

/-- The member `UdpDoubleSender::sendAutoSeq`:
`sendWithSeq(data, count, seq_++)` — the current counter pattern is
passed and the counter is incremented with 32-bit wraparound. -/
def sendAutoSeq (st : SenderState) (dataIsNull : Bool) (data : List Nat)
    (count : Int) (clockNow : Int) :
    Except SendError SendOutcome × SenderState :=
  (sendWithSeq st dataIsNull data count st.seq INT64MIN clockNow,
   { st with seq := (st.seq + 1) % 2 ^ 32 })

/-- The results of `k` successive `sendAutoSeq` calls on one instance
(each with a one-element array, as an arbitrary fixed valid argument). -/
def autoSeqFrames : SenderState → Nat → List (Except SendError SendOutcome)
  | _, 0 => []
  | st, k+1 =>
      (sendAutoSeq st false [0] 1 0).1 ::
      autoSeqFrames (sendAutoSeq st false [0] 1 0).2 k

/-! ## Codec lemmas -/

theorem beBytes_length (w : Nat) : ∀ v : Nat, (beBytes w v).length = w := by
  induction w with
  | zero => intro v; rfl
  | succ w ih => intro v; simp [beBytes, ih]

theorem writeN_length (e : Endian) (w v : Nat) : (writeN e w v).length = w := by
  cases e <;> simp [writeN, beBytes_length]

theorem foldl_beBytes (w : Nat) : ∀ a v : Nat,
    (beBytes w v).foldl (fun x b => x * 256 + b) a = a * 256 ^ w + v % 256 ^ w := by
  induction w with
  | zero => intro a v; simp [beBytes, Nat.mod_one]
  | succ w ih =>
      intro a v
      have key : v / 256 ^ w % 256 * 256 ^ w + v % 256 ^ w = v % 256 ^ (w + 1) := by
        have h2 : v % 256 ^ (w + 1) / 256 ^ w = v / 256 ^ w % 256 := by
          rw [pow_succ]; exact Nat.mod_mul_right_div_self v (256 ^ w) 256
        have h3 : v % 256 ^ (w + 1) % 256 ^ w = v % 256 ^ w :=
          Nat.mod_mod_of_dvd v ⟨256, pow_succ 256 w⟩
        have h4 := Nat.div_add_mod (v % 256 ^ (w + 1)) (256 ^ w)
        rw [h2, h3] at h4
        rw [mul_comm (256 ^ w)] at h4
        exact h4
      show (beBytes w v).foldl _ (a * 256 + v / 256 ^ w % 256) = _
      rw [ih]
      have e1 : (a * 256 + v / 256 ^ w % 256) * 256 ^ w + v % 256 ^ w
          = a * (256 ^ w * 256) + (v / 256 ^ w % 256 * 256 ^ w + v % 256 ^ w) := by ring
      rw [e1, key, pow_succ]

theorem read64_writeN (e : Endian) (v : Nat) : read64 e (writeN e 8 v) = v % 2 ^ 64 := by
  have hl : (beBytes 8 v).length = 8 := beBytes_length 8 v
  have h64 : (256 : Nat) ^ 8 = 2 ^ 64 := by norm_num
  cases e with
  | big =>
      simp only [read64, writeN]
      rw [List.take_of_length_le (le_of_eq hl), foldl_beBytes, h64]
      omega
  | little =>
      simp only [read64, writeN]
      rw [List.take_of_length_le (by simp [hl]), List.reverse_reverse,
        foldl_beBytes, h64]
      omega

theorem read32_writeN (e : Endian) (v : Nat) : read32 e (writeN e 4 v) = v % 2 ^ 32 := by
  have hb : beBytes 4 v
      = [v / 256 ^ 3 % 256, v / 256 ^ 2 % 256, v / 256 ^ 1 % 256, v / 256 ^ 0 % 256] := rfl
  cases e <;>
    · simp only [writeN, hb, List.reverse_cons, List.reverse_nil, List.nil_append,
        List.cons_append, read32, List.getD, List.getElem?_cons_zero,
        List.getElem?_cons_succ, Option.getD_some]
      norm_num
      omega

theorem read16_writeN (e : Endian) (v : Nat) : read16 e (writeN e 2 v) = v % 2 ^ 16 := by
  have hb : beBytes 2 v = [v / 256 ^ 1 % 256, v / 256 ^ 0 % 256] := rfl
  cases e <;>
    · simp only [writeN, hb, List.reverse_cons, List.reverse_nil, List.nil_append,
        List.cons_append, read16, List.getD, List.getElem?_cons_zero,
        List.getElem?_cons_succ, Option.getD_some]
      norm_num
      try omega

theorem payloadBytes_length (e : Endian) (p : List Nat) :
    ((p.map (writeN e 8)).flatten).length = 8 * p.length := by
  induction p with
  | nil => rfl
  | cons v r ih =>
      simp only [List.map_cons, List.flatten_cons, List.length_append, ih,
        writeN_length, List.length_cons]
      ring

theorem encodeFrame_length (e : Endian) (s t : Nat) (p : List Nat) :
    (encodeFrame e s t p).length = HEADER_BYTES + 8 * p.length := by
  simp only [encodeFrame, List.length_append, writeN_length, payloadBytes_length,
    HEADER_BYTES]
  try omega

theorem enc_field_magic (e : Endian) (s t : Nat) (p : List Nat) :
    field (encodeFrame e s t p) 0 4 = writeN e 4 MAGIC := by
  cases e <;> rfl

theorem enc_field_version (e : Endian) (s t : Nat) (p : List Nat) :
    field (encodeFrame e s t p) 4 2 = writeN e 2 VERSION := by
  cases e <;> rfl

theorem enc_field_count (e : Endian) (s t : Nat) (p : List Nat) :
    field (encodeFrame e s t p) 6 2 = writeN e 2 p.length := by
  cases e <;> rfl

theorem enc_field_seq (e : Endian) (s t : Nat) (p : List Nat) :
    field (encodeFrame e s t p) 8 4 = writeN e 4 s := by
  cases e <;> rfl

theorem enc_field_ts (e : Endian) (s t : Nat) (p : List Nat) :
    field (encodeFrame e s t p) 12 8 = writeN e 8 t := by
  cases e <;> rfl

theorem enc_drop_header (e : Endian) (s t : Nat) (p : List Nat) :
    (encodeFrame e s t p).drop HEADER_BYTES = (p.map (writeN e 8)).flatten := by
  cases e <;> rfl

theorem field_append_left (xs ys : List Nat) (off n : Nat) (h : off + n ≤ xs.length) :
    field (xs ++ ys) off n = field xs off n := by
  unfold field
  rw [List.drop_append_of_le_length (by omega)]
  rw [List.take_append_of_le_length (by rw [List.length_drop]; omega)]

theorem field_append_right (xs ys : List Nat) (k n : Nat) :
    field (xs ++ ys) (xs.length + k) n = field ys k n := by
  unfold field
  rw [List.drop_append]

theorem decodeDoubles_flatten (e : Endian) :
    ∀ ps : List Nat,
      decodeDoubles e ((ps.map (writeN e 8)).flatten) ps.length
        = ps.map (fun v => v % 2 ^ 64) := by
  intro ps
  induction ps with
  | nil => rfl
  | cons v rest ih =>
      have hw : (writeN e 8 v).length = 8 := writeN_length e 8 v
      simp only [List.map_cons, List.flatten_cons, List.length_cons]
      rw [decodeDoubles, List.range_succ_eq_map, List.map_cons, List.map_map]
      have h0 : readDouble e
          (field (writeN e 8 v ++ (rest.map (writeN e 8)).flatten) (0 * 8) 8)
          = v % 2 ^ 64 := by
        have hf : field (writeN e 8 v ++ (rest.map (writeN e 8)).flatten) (0 * 8) 8
            = writeN e 8 v := by
          unfold field
          rw [Nat.zero_mul, List.drop_zero,
            List.take_append_of_le_length (le_of_eq hw.symm),
            List.take_of_length_le (le_of_eq hw)]
        rw [hf]
        exact read64_writeN e v
      have h1 : ((List.range rest.length).map
          ((fun i => readDouble e
            (field (writeN e 8 v ++ (rest.map (writeN e 8)).flatten) (i * 8) 8))
              ∘ Nat.succ))
          = decodeDoubles e ((rest.map (writeN e 8)).flatten) rest.length := by
        unfold decodeDoubles
        apply List.map_congr_left
        intro i _
        show readDouble e
            (field (writeN e 8 v ++ (rest.map (writeN e 8)).flatten) ((i + 1) * 8) 8)
            = _
        have hoff : (i + 1) * 8 = (writeN e 8 v).length + i * 8 := by rw [hw]; ring
        rw [hoff, field_append_right]
      rw [h0, h1, ih]

theorem decodeDoubles_append (e : Endian) (bs extra : List Nat) (n : Nat)
    (h : n * 8 ≤ bs.length) :
    decodeDoubles e (bs ++ extra) n = decodeDoubles e bs n := by
  unfold decodeDoubles
  apply List.map_congr_left
  intro i hi
  rw [List.mem_range] at hi
  rw [field_append_left _ _ _ _ (by omega)]

theorem processDatagram_valid (e : Endian) (d : List Nat) (st : ReceiverState)
    (h : ValidDatagram e d) :
    processDatagram e d st = { latest := decodePacket e d, hasData := true } := by
  obtain ⟨h1, h2, h3, h4⟩ := h
  unfold processDatagram
  rw [if_neg (by omega), if_neg (by simp [h2]), if_neg (by simp [h3]),
    if_neg (by omega)]

/-! ## Claim theorems: receiver side -/

/-- C1: For every frame with a 16-bit count and arbitrary 64-bit payload
patterns (hence including the patterns of NaN, ±Infinity and -0.0),
decoding the bytes produced by the sender's encoding step with the same
endianness yields the original frame bit-for-bit: the receive step
accepts the buffer (so magic and version matched) and stores exactly the
original sequence bits, timestamp bits and payload bit patterns, for both
endiannesses. -/
theorem roundtrip_bitexact (e : Endian) (seqBits tsBits : Nat) (payload : List Nat)
    (st : ReceiverState)
    (hn : payload.length < 2 ^ 16) (hs : seqBits < 2 ^ 32) (ht : tsBits < 2 ^ 64)
    (hp : ∀ v ∈ payload, v < 2 ^ 64) :
    processDatagram e (encodeFrame e seqBits tsBits payload) st
      = { latest := { seq := seqBits, timestampNanos := tsBits, data := payload },
          hasData := true } := by
  have hlen := encodeFrame_length e seqBits tsBits payload
  have hcount : read16 e (field (encodeFrame e seqBits tsBits payload) 6 2)
      = payload.length := by
    rw [enc_field_count, read16_writeN, Nat.mod_eq_of_lt hn]
  unfold processDatagram
  rw [if_neg (by rw [hlen]; omega)]
  rw [if_neg (by rw [enc_field_magic, read32_writeN]; norm_num [MAGIC])]
  rw [if_neg (by rw [enc_field_version, read16_writeN]; norm_num [VERSION])]
  rw [if_neg (by rw [hcount, hlen]; omega)]
  have h1 : read32 e (field (encodeFrame e seqBits tsBits payload) 8 4) = seqBits := by
    rw [enc_field_seq, read32_writeN, Nat.mod_eq_of_lt hs]
  have h2 : read64 e (field (encodeFrame e seqBits tsBits payload) 12 8) = tsBits := by
    rw [enc_field_ts, read64_writeN, Nat.mod_eq_of_lt ht]
  have h3 : decodeDoubles e ((encodeFrame e seqBits tsBits payload).drop HEADER_BYTES)
      (read16 e (field (encodeFrame e seqBits tsBits payload) 6 2)) = payload := by
    rw [hcount, enc_drop_header, decodeDoubles_flatten]
    have hmap : payload.map (fun v => v % 2 ^ 64) = payload.map id :=
      List.map_congr_left (fun v hv => Nat.mod_eq_of_lt (hp v hv))
    rw [hmap, List.map_id]
  simp [decodePacket, h1, h2, h3]

/-- Witness for C1 at a concrete frame whose payload holds the bit
patterns of a quiet NaN, of -0.0 and of +Infinity, in little endian. -/
theorem roundtrip_bitexact_witness :
    processDatagram .little
        (encodeFrame .little 5 123
          [0x7FF8000000000000, 0x8000000000000000, 0x7FF0000000000000])
        initialReceiverState
      = { latest := { seq := 5
                      timestampNanos := 123
                      data := [0x7FF8000000000000, 0x8000000000000000, 0x7FF0000000000000] },
          hasData := true } :=
  roundtrip_bitexact .little 5 123
    [0x7FF8000000000000, 0x8000000000000000, 0x7FF0000000000000]
    initialReceiverState (by decide) (by decide) (by decide) (by decide)

/-- C3: a buffer of at least 20 bytes whose decoded magic is not
`0x55445044` or whose version field is not 1 is rejected: the datagram is
dropped and the receiver state (latest slot and has-data flag) is
unchanged, whatever the rest of the buffer holds. -/
theorem magic_version_gating (e : Endian) (buf : List Nat) (st : ReceiverState)
    (hlen : HEADER_BYTES ≤ buf.length)
    (h : read32 e (field buf 0 4) ≠ MAGIC ∨ read16 e (field buf 4 2) ≠ VERSION) :
    processDatagram e buf st = st := by
  unfold processDatagram
  rw [if_neg (by omega)]
  rcases h with h | h
  · rw [if_pos h]
  · by_cases hm : read32 e (field buf 0 4) ≠ MAGIC
    · rw [if_pos hm]
    · rw [if_neg hm, if_pos h]

/-- Witness for C3: a 20-byte buffer of zeros (wrong magic) is dropped. -/
theorem magic_version_gating_witness :
    processDatagram .big
        [0, 0, 0, 0, 0, 0, 0, 0, 0, 0, 0, 0, 0, 0, 0, 0, 0, 0, 0, 0]
        initialReceiverState
      = initialReceiverState :=
  magic_version_gating .big
    [0, 0, 0, 0, 0, 0, 0, 0, 0, 0, 0, 0, 0, 0, 0, 0, 0, 0, 0, 0]
    initialReceiverState (by decide) (Or.inl (by decide))

/-- C4: a buffer shorter than 20 bytes is rejected, and a buffer that
declares `count = N > 0` while being shorter than `20 + N*8` bytes is
rejected; in both cases the receiver state (latest slot and has-data
flag) is unchanged. -/
theorem short_or_truncated_rejected (e : Endian) (buf : List Nat) (st : ReceiverState) :
    (buf.length < HEADER_BYTES → processDatagram e buf st = st)
    ∧ (∀ N : Nat, 0 < N → read16 e (field buf 6 2) = N →
        buf.length < HEADER_BYTES + N * 8 → processDatagram e buf st = st) := by
  constructor
  · intro h
    unfold processDatagram
    rw [if_pos h]
  · intro N _ hc hlen
    unfold processDatagram
    by_cases h1 : buf.length < HEADER_BYTES
    · rw [if_pos h1]
    · rw [if_neg h1]
      by_cases h2 : read32 e (field buf 0 4) ≠ MAGIC
      · rw [if_pos h2]
      · rw [if_neg h2]
        by_cases h3 : read16 e (field buf 4 2) ≠ VERSION
        · rw [if_pos h3]
        · rw [if_neg h3, if_pos (by rw [hc]; exact hlen)]

/-- Witness for C4: a 3-byte buffer is dropped, and a valid header that
declares one double but carries no payload bytes is dropped. -/
theorem short_or_truncated_rejected_witness :
    processDatagram .big [1, 2, 3] initialReceiverState = initialReceiverState
    ∧ processDatagram .big
        [0x55, 0x44, 0x50, 0x44, 0, 1, 0, 1, 0, 0, 0, 0, 0, 0, 0, 0, 0, 0, 0, 0]
        initialReceiverState
      = initialReceiverState :=
  ⟨(short_or_truncated_rejected .big [1, 2, 3] initialReceiverState).1 (by decide),
   (short_or_truncated_rejected .big
      [0x55, 0x44, 0x50, 0x44, 0, 1, 0, 1, 0, 0, 0, 0, 0, 0, 0, 0, 0, 0, 0, 0]
      initialReceiverState).2 1 (by decide) (by decide) (by decide)⟩

/-- C8: if no valid frame has ever been stored, `getLatest` returns
`false` and hands back the caller's `out` value unmodified; if one has,
it returns `true` together with a copy of the stored frame (the stored
state itself is read-only here, hence unchanged). -/
theorem get_latest_spec (st : ReceiverState) (out : Packet) :
    (st.hasData = false → getLatest st out = (false, out))
    ∧ (st.hasData = true → getLatest st out = (true, st.latest)) := by
  constructor <;> intro h <;> simp [getLatest, h]

/-- Witness for C8: on the never-filled initial state, `out` comes back
untouched with `false`. -/
theorem get_latest_spec_witness :
    getLatest initialReceiverState { seq := 7, timestampNanos := 9, data := [1] }
      = (false, { seq := 7, timestampNanos := 9, data := [1] }) :=
  (get_latest_spec initialReceiverState
    { seq := 7, timestampNanos := 9, data := [1] }).1 rfl

/-- C9: after the receive loop handles any sequence of datagrams whose
last element is valid, the latest slot holds the frame decoded from that
last-delivered datagram (delivery order, not sequence order), whatever
was delivered before and whatever the starting state. -/
theorem latest_wins (e : Endian) (st : ReceiverState) (ds : List (List Nat))
    (d : List Nat) (hd : ValidDatagram e d) :
    processAll e st (ds ++ [d]) = { latest := decodePacket e d, hasData := true } := by
  unfold processAll
  rw [List.foldl_append]
  simp only [List.foldl_cons, List.foldl_nil]
  exact processDatagram_valid e d _ hd

/-- Witness for C9: delivering frames with sequences 5, 3, 9 in that
order leaves the frame with sequence 9 in the latest slot, and
`getLatest` reports it. -/
theorem latest_wins_witness :
    processAll .big initialReceiverState
        [encodeFrame .big 5 0 [], encodeFrame .big 3 0 [], encodeFrame .big 9 0 []]
      = { latest := decodePacket .big (encodeFrame .big 9 0 []), hasData := true }
    ∧ (decodePacket .big (encodeFrame .big 9 0 [])).seq = 9
    ∧ (getLatest (processAll .big initialReceiverState
        [encodeFrame .big 5 0 [], encodeFrame .big 3 0 [], encodeFrame .big 9 0 []])
        { seq := 0, timestampNanos := 0, data := [] }).2.seq = 9 :=
  ⟨latest_wins .big initialReceiverState
      [encodeFrame .big 5 0 [], encodeFrame .big 3 0 []]
      (encodeFrame .big 9 0 []) (by unfold ValidDatagram; decide),
   by decide, by decide⟩

/-- C10: a buffer whose first `20 + N*8` bytes form a valid frame that
declares `count = N` is still accepted when surplus trailing bytes
follow: exactly the `N` doubles between bytes 20 and `20 + N*8` are
decoded, the surplus is ignored (the stored packet equals the one decoded
from the un-extended buffer), and the stored data length is `N`. -/
theorem surplus_bytes_accepted (e : Endian) (st : ReceiverState)
    (buf extra : List Nat) (N : Nat)
    (hlen : buf.length = HEADER_BYTES + N * 8)
    (hm : read32 e (field buf 0 4) = MAGIC)
    (hv : read16 e (field buf 4 2) = VERSION)
    (hc : read16 e (field buf 6 2) = N)
    (hx : 0 < extra.length) :
    processDatagram e (buf ++ extra) st
      = { latest := decodePacket e buf, hasData := true }
    ∧ (decodePacket e buf).data.length = N := by
  have hb : HEADER_BYTES = 20 := rfl
  have hf0 : field (buf ++ extra) 0 4 = field buf 0 4 :=
    field_append_left buf extra 0 4 (by omega)
  have hf4 : field (buf ++ extra) 4 2 = field buf 4 2 :=
    field_append_left buf extra 4 2 (by omega)
  have hf6 : field (buf ++ extra) 6 2 = field buf 6 2 :=
    field_append_left buf extra 6 2 (by omega)
  have hf8 : field (buf ++ extra) 8 4 = field buf 8 4 :=
    field_append_left buf extra 8 4 (by omega)
  have hf12 : field (buf ++ extra) 12 8 = field buf 12 8 :=
    field_append_left buf extra 12 8 (by omega)
  have hdrop : (buf ++ extra).drop HEADER_BYTES = buf.drop HEADER_BYTES ++ extra := by
    rw [List.drop_append_of_le_length (by omega)]
  have hdec : decodePacket e (buf ++ extra) = decodePacket e buf := by
    unfold decodePacket
    rw [hf6, hf8, hf12, hdrop, decodeDoubles_append e _ _ _ (by rw [List.length_drop]; omega)]
  constructor
  · unfold processDatagram
    rw [if_neg (by rw [List.length_append]; omega)]
    rw [hf0, if_neg (by simp [hm]), hf4, if_neg (by simp [hv]), hf6,
      if_neg (by rw [hc, List.length_append]; omega), hdec]
  · unfold decodePacket decodeDoubles
    simp [hc]

/-- Witness for C10: a valid one-double frame followed by three surplus
bytes is accepted and stores exactly one double. -/
theorem surplus_bytes_accepted_witness :
    processDatagram .big (encodeFrame .big 4 0 [66] ++ [9, 9, 9]) initialReceiverState
      = { latest := decodePacket .big (encodeFrame .big 4 0 [66]), hasData := true }
    ∧ (decodePacket .big (encodeFrame .big 4 0 [66])).data.length = 1 :=
  surplus_bytes_accepted .big initialReceiverState (encodeFrame .big 4 0 [66])
    [9, 9, 9] 1 (by decide) (by decide) (by decide) (by decide) (by decide)

/-! ## Claim theorems: sender side -/

/-- C2 counterexample: on an open sender of capacity 172, a call with a
non-null data pointer and `count = 0` (an empty values array) returns
normally with "0 bytes sent, nothing emitted" — it does not raise an
argument error: `sendWithSeq` hits `if (count <= 0) return 0;` before any
validation against the spec's `0 < len(values)`. -/
theorem empty_send_counterexample :
    sendWithSeq { maxDoubles := 172, seq := 0, tsOffset := 0, isOpen := true }
        false [] 0 0 0 0
      = .ok .noSend := by rfl

/-- C2 (amended): a call with a non-null data pointer and a non-positive
count (in particular an empty values array) returns 0 bytes sent without
emitting any datagram and without raising; only a null data pointer
raises an argument error on this path. -/
theorem empty_send_returns_zero (st : SenderState) (data : List Nat) (count : Int)
    (seq : Nat) (ts clk : Int) (h : count ≤ 0) :
    sendWithSeq st false data count seq ts clk = .ok .noSend := by
  unfold sendWithSeq
  rw [if_neg (by simp), if_pos h]

/-- Witness for the amended C2 at a concrete empty-array call. -/
theorem empty_send_returns_zero_witness :
    sendWithSeq { maxDoubles := 10, seq := 3, tsOffset := 0, isOpen := true }
        false [1, 2] 0 7 0 0 = .ok .noSend :=
  empty_send_returns_zero
    { maxDoubles := 10, seq := 3, tsOffset := 0, isOpen := true }
    [1, 2] 0 7 0 0 (by decide)

/-- C5: requesting `maxDoubles = 1000` under the default 1400-byte payload
budget yields effective capacity `(1400-20)/8 = 172`; a send of 173
doubles on such an instance raises an argument error; in general the
effective capacity is `max(0, min(requested, floor((payloadLimit-20)/8)))`
and any send with `count > capacity` raises an argument error. -/
theorem capacity_clamp :
    ctorMaxDoubles 1000 1400 = 172
    ∧ (∀ (st : SenderState) (data : List Nat) (seq : Nat) (ts clk : Int),
        st.maxDoubles = 172 →
        sendWithSeq st false data 173 seq ts clk
          = .error (.invalidArgument "count > maxDoubles/payload cap"))
    ∧ (∀ m p : Int, ctorMaxDoubles m p
        = max 0 (min m (((if 0 < p then p else 1400) - 20).fdiv 8)))
    ∧ (∀ (st : SenderState) (data : List Nat) (count : Int) (seq : Nat) (ts clk : Int),
        0 ≤ st.maxDoubles → st.maxDoubles < count →
        sendWithSeq st false data count seq ts clk
          = .error (.invalidArgument "count > maxDoubles/payload cap")) := by
  refine ⟨by decide, ?_, ?_, ?_⟩
  · intro st data seq ts clk h
    unfold sendWithSeq
    rw [if_neg (by simp), if_neg (by norm_num), if_pos (by rw [h]; norm_num)]
  · intro m p
    simp only [ctorMaxDoubles, DEFAULT_MAX_UDP_PAYLOAD, HEADER_BYTES, Nat.cast_ofNat]
    by_cases hp : 0 < p
    · simp only [if_pos hp]
      by_cases h20 : 20 ≤ p
      · rw [Int.tdiv_eq_ediv (by omega) (by norm_num), Int.fdiv_eq_ediv _ (by norm_num)]
        have hq : (0:Int) ≤ (p - 20) / 8 := Int.ediv_nonneg (by omega) (by norm_num)
        omega
      · have ht : (p - 20).tdiv 8 ≤ 0 := by
          have h1 : p - 20 = -(20 - p) := by ring
          rw [h1, Int.neg_tdiv]
          have h2 := Int.tdiv_nonneg (a := 20 - p) (b := 8) (by omega) (by norm_num)
          omega
        have he : (p - 20).fdiv 8 < 0 := by
          rw [Int.fdiv_eq_ediv _ (by norm_num)]
          exact Int.ediv_neg' (by omega) (by norm_num)
        omega
    · simp only [if_neg hp]
      rw [show ((1400:Int) - 20) = 1380 from by norm_num,
        show ((1380:Int).tdiv 8) = 172 from by decide,
        show ((1380:Int).fdiv 8) = 172 from by decide]
      omega
  · intro st data count seq ts clk h0 h1
    unfold sendWithSeq
    rw [if_neg (by simp), if_neg (by omega), if_pos h1]

/-- Witness for C5: the concrete oversized send on a capacity-172
instance raises the argument error. -/
theorem capacity_clamp_witness :
    sendWithSeq { maxDoubles := 172, seq := 0, tsOffset := 0, isOpen := true }
        false [] 173 0 0 0
      = .error (.invalidArgument "count > maxDoubles/payload cap") :=
  capacity_clamp.2.1
    { maxDoubles := 172, seq := 0, tsOffset := 0, isOpen := true }
    [] 0 0 0 rfl

/-- One `sendAutoSeq` call on an open sender with capacity at least 1:
it emits a frame carrying the current counter pattern and increments the
counter with 32-bit wraparound. -/
theorem sendAutoSeq_step (st : SenderState) (hopen : st.isOpen = true)
    (hmax : 1 ≤ st.maxDoubles) :
    sendAutoSeq st false [0] 1 0
      = (.ok (.datagram (encodeFrame .big st.seq
            ((monotonicNowNanosNonNegative_ st.tsOffset 0 % (2 ^ 64 : Int)).toNat) [0])),
         { st with seq := (st.seq + 1) % 2 ^ 32 }) := by
  have h0 : ¬ (false = true) := by simp
  have h1 : ¬ ((1:Int) ≤ 0) := by norm_num
  have h2 : ¬ (st.maxDoubles < 1) := by omega
  have h3 : ¬ (st.isOpen = false) := by simp [hopen]
  simp only [sendAutoSeq, sendWithSeq, if_neg h0, if_neg h1, if_neg h2, if_neg h3,
    if_pos rfl]
  norm_num [List.range_succ]

/-- C6: calling `sendAutoSeq` repeatedly on one open instance emits
frames whose 32-bit sequence fields are the successive counter values:
the i-th call (0-based) emits the pattern `(initial + i) mod 2^32`, i.e.
the sequence is strictly increasing modulo 32-bit wraparound starting at
the instance's initial counter value. -/
theorem auto_seq_monotone : ∀ (k i : Nat) (st : SenderState), i < k →
    st.isOpen = true → 1 ≤ st.maxDoubles → st.seq < 2 ^ 32 →
    (autoSeqFrames st k)[i]?
      = some (.ok (.datagram (encodeFrame .big ((st.seq + i) % 2 ^ 32)
          ((monotonicNowNanosNonNegative_ st.tsOffset 0 % (2 ^ 64 : Int)).toNat) [0]))) := by
  intro k
  induction k with
  | zero => intro i st hi _ _ _; exact absurd hi (Nat.not_lt_zero i)
  | succ k ih =>
      intro i st hi hopen hmax hseq
      rw [autoSeqFrames, sendAutoSeq_step st hopen hmax]
      dsimp only
      cases i with
      | zero =>
          rw [List.getElem?_cons_zero, Nat.add_zero, Nat.mod_eq_of_lt hseq]
      | succ i =>
          rw [List.getElem?_cons_succ]
          have hs2 : ({ st with seq := (st.seq + 1) % 2 ^ 32 } : SenderState).seq
              < 2 ^ 32 := by
            simp only []
            exact Nat.mod_lt _ (by norm_num)
          rw [ih i { st with seq := (st.seq + 1) % 2 ^ 32 } (by omega) hopen hmax hs2]
          have harith : ((st.seq + 1) % 2 ^ 32 + i) % 2 ^ 32
              = (st.seq + (i + 1)) % 2 ^ 32 := by
            simp only [show (2:Nat) ^ 32 = 4294967296 from by norm_num]
            omega
          simp only [harith]

/-- Witness for C6: three auto-sequence sends starting at counter 5 — the
third call (index 2) emits sequence pattern 7. -/
theorem auto_seq_monotone_witness :
    (autoSeqFrames { maxDoubles := 172, seq := 5, tsOffset := 7, isOpen := true } 3)[2]?
      = some (.ok (.datagram (encodeFrame .big ((5 + 2) % 2 ^ 32)
          ((monotonicNowNanosNonNegative_ 7 0 % (2 ^ 64 : Int)).toNat) [0]))) :=
  auto_seq_monotone 3 2 { maxDoubles := 172, seq := 5, tsOffset := 7, isOpen := true }
    (by decide) rfl (by decide) (by decide)

/-- C7: if the monotonic clock never decreases after construction, every
default timestamp the sender produces is non-negative: the offset fixed
at construction is the negation of the construction-time reading if that
was negative (else zero), and it is added to every later reading. -/
theorem timestamp_nonneg (now0 now : Int) (h : now0 ≤ now) :
    0 ≤ monotonicNowNanosNonNegative_ (initTimestampOffset_ now0) now := by
  unfold monotonicNowNanosNonNegative_ initTimestampOffset_
  split <;> omega

/-- Witness for C7 at a construction-time reading of -5 and a later
reading of 3. -/
theorem timestamp_nonneg_witness :
    0 ≤ monotonicNowNanosNonNegative_ (initTimestampOffset_ (-5)) 3 :=
  timestamp_nonneg (-5) 3 (by norm_num)
